import Mathlib

/-!
Shallow embedding of `project.py` (a small library-management system) and
proofs of the specification claims about its lending core.

Python dictionaries are modelled as association lists in insertion order
(`assocLookup` / `assocInsert` / `assocErase` mirror `d[k]`, `d[k] = v` and
`d.pop(k)`).  Calendar dates are modelled as integers (days); machine-level
details do not arise since Python integers are unbounded.  `datetime.date.today()`
is an explicit `today` parameter of each operation that reads the clock.
`print` calls are modelled by the result values of `IssueResult`/`ReturnResult`;
a Python `KeyError`/`AttributeError` on a missing id aborts the operation
before any mutation, so it is modelled as an error result with the state
unchanged.
-/

namespace LibSys

/-- Python dict read `d.get(k)` / `d[k]`: value at the first matching key. -/
def assocLookup {α : Type} (k : String) : List (String × α) → Option α
  | [] => none
  | (k', v) :: rest => if k' = k then some v else assocLookup k rest

/-- Python dict write `d[k] = v`: replaces the value of an existing key in
place, otherwise appends the new binding at the end. -/
def assocInsert {α : Type} (k : String) (v : α) : List (String × α) → List (String × α)
  | [] => [(k, v)]
  | (k', v') :: rest => if k' = k then (k, v) :: rest else (k', v') :: assocInsert k v rest

/-- Python dict removal `d.pop(k, None)` (the binding part): drops the first
binding of `k`, if any. -/
def assocErase {α : Type} (k : String) : List (String × α) → List (String × α)
  | [] => []
  | (k', v') :: rest => if k' = k then rest else (k', v') :: assocErase k rest

/-- `Book.__init__` fields.  `waitlist` is the member-id queue; `total_copies`
starts equal to `copies`. -/
structure Book where
  isbn : String
  title : String
  author : String
  genre : String
  copies : Int
  book_type : String
  waitlist : List String
  total_copies : Int
  deriving DecidableEq

/-- `Member.__init__` fields.  `borrowed_books` maps isbn to due date;
`history` collects the returned `Book` values (Python appends the `Book`
object itself; only the entries and their count are relied on here). -/
structure Member where
  member_id : String
  name : String
  contact : String
  membership_type : String
  membership_expiry : Int
  borrowed_books : List (String × Int)
  history : List Book
  reading_times : List Int
  fines : Int
  challenge_progress : Int
  privacy_consent : Bool
  deriving DecidableEq

/-- `Branch.__init__` fields. -/
structure Branch where
  branch_id : String
  location : String
  operating_hours : String
  books : List (String × Book)
  deriving DecidableEq

/-- `LibrarySystem.__init__` fields. -/
structure LibrarySystem where
  branches : List (String × Branch)
  books : List (String × Book)
  members : List (String × Member)
  system_status : String
  deriving DecidableEq

/-- The status `issue_book` reports (by printing / by raising on a missing
id); `errMember` is the `KeyError` on `self.members[member_id]` and `errBook`
the `AttributeError` on `self.books.get(isbn)` being `None`. -/
inductive IssueResult where
  | offline
  | errMember
  | noConsent
  | expired
  | overdueBlocked
  | limitReached
  | errBook
  | noAvailability
  | queueTurn
  | issued (due_date : Int)
  deriving DecidableEq

/-- The status `return_book` reports; `notFound` is the silent no-op branch
when the isbn is not in the member's `borrowed_books`, `errLookup` the
`KeyError` on a missing member or book id. -/
inductive ReturnResult where
  | returned
  | notFound
  | errLookup
  deriving DecidableEq

/-- `LibrarySystem.__init__`: empty registries, status `"online"`. -/
def initState : LibrarySystem :=
  { branches := [], books := [], members := [], system_status := "online" }

/-- `add_library_branch`. -/
def add_library_branch (s : LibrarySystem) (branch_id location operating_hours : String) :
    LibrarySystem :=
  let br : Branch :=
    { branch_id := branch_id, location := location,
      operating_hours := operating_hours, books := [] }
  { s with branches := assocInsert branch_id br s.branches }

/-- `add_book`: a fresh isbn creates a book with `total_copies = copies`;
an existing isbn has both counters incremented by `copies`. -/
def add_book (s : LibrarySystem) (isbn title author genre : String) (copies : Int)
    (book_type : String) : LibrarySystem :=
  match assocLookup isbn s.books with
  | none =>
      let b : Book :=
        { isbn := isbn, title := title, author := author, genre := genre,
          copies := copies, book_type := book_type, waitlist := [],
          total_copies := copies }
      { s with books := assocInsert isbn b s.books }
  | some b =>
      let b' : Book :=
        { b with copies := b.copies + copies, total_copies := b.total_copies + copies }
      { s with books := assocInsert isbn b' s.books }

/-- `register_member`: expiry is `today + 365`; overwrites any member already
registered under the same id, exactly as the Python dict assignment does. -/
def register_member (s : LibrarySystem) (member_id name contact membership_type : String)
    (today : Int) : LibrarySystem :=
  let mem : Member :=
    { member_id := member_id, name := name, contact := contact,
      membership_type := membership_type, membership_expiry := today + 365,
      borrowed_books := [], history := [], reading_times := [], fines := 0,
      challenge_progress := 0, privacy_consent := true }
  { s with members := assocInsert member_id mem s.members }

/-- `add_to_waitlist`: appends the member id unless already present.  (The
Python code indexes `self.books[isbn]`; every caller passes an existing isbn,
and a missing one would raise before mutating, modelled as no change.) -/
def add_to_waitlist (s : LibrarySystem) (member_id isbn : String) : LibrarySystem :=
  match assocLookup isbn s.books with
  | none => s
  | some b =>
      if member_id ∈ b.waitlist then s
      else
        let b' : Book := { b with waitlist := b.waitlist ++ [member_id] }
        { s with books := assocInsert isbn b' s.books }

/-- `issue_book`, with its guards in source order: offline gate, member lookup,
consent, expiry, overdue block, five-book limit, zero-copies waitlisting,
reservation-queue turn, and finally the issuance itself.  The Python code
fetches `self.books.get(isbn)` early but first dereferences it at the
`book.copies == 0` test, which is where a missing book raises. -/
def issue_book (s : LibrarySystem) (member_id isbn branch_id : String) (today : Int) :
    LibrarySystem × IssueResult :=
  if s.system_status ≠ "online" then (s, .offline)
  else
    match assocLookup member_id s.members with
    | none => (s, .errMember)
    | some member =>
      if member.privacy_consent = false then (s, .noConsent)
      else if member.membership_expiry < today then (s, .expired)
      else if member.borrowed_books.any (fun p => decide (p.2 < today)) then
        (s, .overdueBlocked)
      else if 5 ≤ member.borrowed_books.length then (s, .limitReached)
      else
        match assocLookup isbn s.books with
        | none => (s, .errBook)
        | some book =>
          if book.copies = 0 then
            (add_to_waitlist s member_id isbn, .noAvailability)
          else if member_id ∈ book.waitlist ∧ book.waitlist.head? ≠ some member_id then
            (s, .queueTurn)
          else
            let due_date := today + 14
            let book' : Book := { book with copies := book.copies - 1 }
            let member' : Member :=
              { member with borrowed_books := assocInsert isbn due_date member.borrowed_books }
            ({ s with books := assocInsert isbn book' s.books,
                      members := assocInsert member_id member' s.members }, .issued due_date)

/-- One fuelled unfolding of the `while book.waitlist and book.copies > 0`
loop of `handle_waitlist`: pop the head of the waitlist and auto-issue to
them.  The loop always terminates within `waitlist.length` iterations: every
iteration pops one entry, and `issue_book` invoked while `copies > 0` never
appends to this waitlist. -/
def handle_go (isbn : String) (today : Int) : Nat → LibrarySystem → LibrarySystem
  | 0, s => s
  | Nat.succ fuel, s =>
    match assocLookup isbn s.books with
    | none => s
    | some b =>
      match b.waitlist with
      | [] => s
      | next_member :: rest =>
        if 0 < b.copies then
          let b' : Book := { b with waitlist := rest }
          let s1 : LibrarySystem := { s with books := assocInsert isbn b' s.books }
          handle_go isbn today fuel (issue_book s1 next_member isbn "auto" today).1
        else s

/-- `handle_waitlist`: drain the waitlist while copies remain, auto-issuing to
each popped member via `issue_book`. -/
def handle_waitlist (s : LibrarySystem) (isbn : String) (today : Int) : LibrarySystem :=
  match assocLookup isbn s.books with
  | none => s
  | some b => handle_go isbn today b.waitlist.length s

/-- `return_book`: pop the isbn from the member's `borrowed_books` (silent
no-op when absent); record reading time, history and challenge progress; add
the late fine and the condition fine; restore the copy only when the
condition is neither `"damaged"` nor `"lost"`; finally run the waitlist. -/
def return_book (s : LibrarySystem) (member_id isbn : String) (return_date : Int)
    (condition : String) (today : Int) : LibrarySystem × ReturnResult :=
  match assocLookup member_id s.members with
  | none => (s, .errLookup)
  | some member =>
    match assocLookup isbn s.books with
    | none => (s, .errLookup)
    | some book =>
      match assocLookup isbn member.borrowed_books with
      | none => (s, .notFound)
      | some due_date =>
        let borrow_date := due_date - 14
        let reading_time := return_date - borrow_date
        let late_fine : Int := if due_date < return_date then (return_date - due_date) * 5 else 0
        let condition_fine : Int :=
          if condition = "damaged" then 100 else if condition = "lost" then 500 else 0
        let member' : Member :=
          { member with
              borrowed_books := assocErase isbn member.borrowed_books,
              reading_times := member.reading_times ++ [reading_time],
              history := member.history ++ [book],
              challenge_progress := member.challenge_progress + 1,
              fines := member.fines + late_fine + condition_fine }
        let book' : Book :=
          if condition = "damaged" ∨ condition = "lost" then book
          else { book with copies := book.copies + 1 }
        let s1 : LibrarySystem :=
          { s with books := assocInsert isbn book' s.books,
                   members := assocInsert member_id member' s.members }
        (handle_waitlist s1 isbn today, .returned)

/-- `calculate_fine` (defined in the source, never called by it). -/
def calculate_fine (s : LibrarySystem) (member_id : String) (return_date due_date : Int) : Int :=
  max 0 ((return_date - due_date) * 5)

/-- One external call into the system; each clock-reading operation carries
the `today` at which it runs. -/
inductive Op where
  | opAddBranch (branch_id location operating_hours : String)
  | opAddBook (isbn title author genre : String) (copies : Int) (book_type : String)
  | opRegister (member_id name contact membership_type : String) (today : Int)
  | opIssue (member_id isbn branch_id : String) (today : Int)
  | opReturn (member_id isbn : String) (return_date : Int) (condition : String) (today : Int)
  deriving DecidableEq

/-- Dispatch one operation. -/
def step (s : LibrarySystem) : Op → LibrarySystem
  | .opAddBranch branch_id location operating_hours =>
      add_library_branch s branch_id location operating_hours
  | .opAddBook isbn title author genre copies book_type =>
      add_book s isbn title author genre copies book_type
  | .opRegister member_id name contact membership_type today =>
      register_member s member_id name contact membership_type today
  | .opIssue member_id isbn branch_id today =>
      (issue_book s member_id isbn branch_id today).1
  | .opReturn member_id isbn return_date condition today =>
      (return_book s member_id isbn return_date condition today).1

/-- Run a sequence of operations from a state. -/
def run (s : LibrarySystem) (ops : List Op) : LibrarySystem :=
  ops.foldl step s

/-- `add_book` operations with a non-negative copy count (the stipulation of
the copy-count invariant claim). -/
def opCopiesNonneg : Op → Bool
  | .opAddBook _ _ _ _ copies _ => decide (0 ≤ copies)
  | _ => true

/-- Whether a member (identified by the right key) currently holds the isbn. -/
def holdsIsbn (mem : Member) (isbn : String) : Bool :=
  (assocLookup isbn mem.borrowed_books).isSome

/-- Number of registry entries whose member currently holds the isbn. -/
def borrowedCount (members : List (String × Member)) (isbn : String) : Nat :=
  match members with
  | [] => 0
  | p :: rest => (if holdsIsbn p.2 isbn then 1 else 0) + borrowedCount rest isbn

/-- A register that is an `opRegister` for the given member id (the one step
that overwrites an existing member record). -/
def opRegisters (op : Op) (member_id : String) : Bool :=
  match op with
  | .opRegister id _ _ _ _ => decide (id = member_id)
  | _ => false

/-- Scenario: one book with two copies, one fresh member, one successful
issue at day 0. -/
def opsIssued : List Op :=
  [ .opAddBook "b" "t" "a" "g" 2 "p", .opRegister "m" "n" "c" "t" 0,
    .opIssue "m" "b" "br" 0 ]

def sIssued : LibrarySystem := run initState opsIssued

def bookIssued : Book :=
  { isbn := "b", title := "t", author := "a", genre := "g", copies := 1,
    book_type := "p", waitlist := [], total_copies := 2 }

def memIssued : Member :=
  { member_id := "m", name := "n", contact := "c", membership_type := "t",
    membership_expiry := 365, borrowed_books := [("b", 14)], history := [],
    reading_times := [], fines := 0, challenge_progress := 0, privacy_consent := true }

/-- Scenario: one book with two copies and one fresh member, nothing issued. -/
def opsRW : List Op :=
  [ .opAddBook "b" "t" "a" "g" 2 "p", .opRegister "m" "n" "c" "t" 0 ]

def sRW : LibrarySystem := run initState opsRW

def bookRW : Book :=
  { isbn := "b", title := "t", author := "a", genre := "g", copies := 2,
    book_type := "p", waitlist := [], total_copies := 2 }

def memRW : Member :=
  { member_id := "m", name := "n", contact := "c", membership_type := "t",
    membership_expiry := 365, borrowed_books := [], history := [],
    reading_times := [], fines := 0, challenge_progress := 0, privacy_consent := true }

/-- Scenario: member `w` got waitlisted while the single copy was out with
`x`; restocking then leaves one available copy with `w` still queued. -/
def opsWaiting : List Op :=
  [ .opAddBook "b" "t" "a" "g" 1 "p", .opRegister "w" "n" "c" "t" 0,
    .opRegister "m" "n" "c" "t" 0, .opRegister "x" "n" "c" "t" 0,
    .opIssue "x" "b" "br" 0, .opIssue "w" "b" "br" 0,
    .opAddBook "b" "t" "a" "g" 1 "p" ]

def sWaiting : LibrarySystem := run initState opsWaiting

def bookWaiting : Book :=
  { isbn := "b", title := "t", author := "a", genre := "g", copies := 1,
    book_type := "p", waitlist := ["w"], total_copies := 2 }

/-- Scenario: a registered member and a book added with zero copies. -/
def opsZero : List Op :=
  [ .opRegister "m" "n" "c" "t" 0, .opAddBook "b" "t" "a" "g" 0 "p" ]

def sZero : LibrarySystem := run initState opsZero

def bookZero : Book :=
  { isbn := "b", title := "t", author := "a", genre := "g", copies := 0,
    book_type := "p", waitlist := [], total_copies := 0 }

def memZero : Member :=
  { member_id := "m", name := "n", contact := "c", membership_type := "t",
    membership_expiry := 365, borrowed_books := [], history := [],
    reading_times := [], fines := 0, challenge_progress := 0, privacy_consent := true }

/-- Scenario: a member who returned a book six days late and so owes 30. -/
def opsFined : List Op :=
  [ .opRegister "m" "n" "c" "t" 0, .opAddBook "b" "t" "a" "g" 1 "p",
    .opIssue "m" "b" "br" 0, .opReturn "m" "b" 20 "good" 20 ]

def sFined : LibrarySystem := run initState opsFined

def memFined : Member :=
  { member_id := "m", name := "n", contact := "c", membership_type := "t",
    membership_expiry := 365, borrowed_books := [],
    history := [{ isbn := "b", title := "t", author := "a", genre := "g",
                  copies := 0, book_type := "p", waitlist := [], total_copies := 1 }],
    reading_times := [20], fines := 30, challenge_progress := 1, privacy_consent := true }

/-- The member of `sFined` after additionally issuing book `b` on day 21. -/
def memFinedIssued : Member :=
  { memFined with borrowed_books := [("b", 35)] }

/-- Literal state for the waitlist-drop theorem: one available copy, the
expired member `w` at the head of the waitlist. -/
def memW8 : Member :=
  { member_id := "w", name := "n", contact := "c", membership_type := "t",
    membership_expiry := 10, borrowed_books := [], history := [],
    reading_times := [], fines := 0, challenge_progress := 0, privacy_consent := true }

def bookW8 : Book :=
  { isbn := "b", title := "t", author := "a", genre := "g", copies := 1,
    book_type := "p", waitlist := ["w"], total_copies := 2 }

def sW8 : LibrarySystem :=
  { branches := [], books := [("b", bookW8)], members := [("w", memW8)],
    system_status := "online" }

/-- Every member holds at most five borrowed books. -/
def BorrowLimit (s : LibrarySystem) : Prop :=
  ∀ p ∈ s.members, p.2.borrowed_books.length ≤ 5

/-- The inductive invariant of the lending core: book keys are unique, each
member's borrowed map has unique keys and only mentions registered isbns, and
every book satisfies `0 ≤ copies` and `copies + (outstanding loans) ≤
total_copies`. -/
structure Inv (s : LibrarySystem) : Prop where
  booksNodup : (s.books.map Prod.fst).Nodup
  borrowNodup : ∀ p ∈ s.members, (p.2.borrowed_books.map Prod.fst).Nodup
  borrowKeysExist : ∀ p ∈ s.members, ∀ q ∈ p.2.borrowed_books,
    (assocLookup q.1 s.books).isSome = true
  counts : ∀ p ∈ s.books,
    0 ≤ p.2.copies ∧ p.2.copies + (borrowedCount s.members p.1 : Int) ≤ p.2.total_copies

/-! Section: Association-list lemmas -/

theorem assocLookup_insert_self {α : Type} (k : String) (v : α) (l : List (String × α)) :
    assocLookup k (assocInsert k v l) = some v := by
  induction l with
  | nil => simp [assocInsert, assocLookup]
  | cons hd tl ih =>
    obtain ⟨k', v'⟩ := hd
    by_cases h : k' = k
    · subst h; simp [assocInsert, assocLookup]
    · simp [assocInsert, assocLookup, h, ih]

theorem assocLookup_insert_ne {α : Type} {j k : String} (h : j ≠ k) (v : α)
    (l : List (String × α)) : assocLookup j (assocInsert k v l) = assocLookup j l := by
  induction l with
  | nil =>
    have h1 : ¬ (k = j) := fun hh => h hh.symm
    simp [assocInsert, assocLookup, h1]
  | cons hd tl ih =>
    obtain ⟨k', v'⟩ := hd
    by_cases hk : k' = k
    · subst hk
      have h1 : ¬ (k' = j) := fun hh => h (hh.symm)
      simp [assocInsert, assocLookup, h1]
    · by_cases hj : k' = j
      · subst hj; simp [assocInsert, assocLookup, hk]
      · simp [assocInsert, assocLookup, hk, hj, ih]

theorem assocLookup_mem {α : Type} {k : String} {v : α} {l : List (String × α)}
    (h : assocLookup k l = some v) : (k, v) ∈ l := by
  induction l with
  | nil => simp [assocLookup] at h
  | cons hd tl ih =>
    obtain ⟨k', v'⟩ := hd
    by_cases hk : k' = k
    · subst hk
      simp [assocLookup] at h
      subst h
      exact List.mem_cons_self _ _
    · simp [assocLookup, hk] at h
      exact List.mem_cons_of_mem _ (ih h)

theorem assocLookup_eq_none {α : Type} {k : String} {l : List (String × α)}
    (h : k ∉ l.map Prod.fst) : assocLookup k l = none := by
  induction l with
  | nil => rfl
  | cons hd tl ih =>
    obtain ⟨k', v'⟩ := hd
    rw [List.map_cons, List.mem_cons] at h
    push_neg at h
    have h1 : ¬ (k' = k) := fun hh => h.1 hh.symm
    simp [assocLookup, h1, ih h.2]

theorem mem_keys_of_lookup_isSome {α : Type} {k : String} {l : List (String × α)}
    (h : (assocLookup k l).isSome = true) : k ∈ l.map Prod.fst := by
  by_contra hk
  rw [assocLookup_eq_none hk] at h
  simp at h

theorem mem_assocInsert {α : Type} {p : String × α} {k : String} {v : α}
    {l : List (String × α)} (h : p ∈ assocInsert k v l) : p = (k, v) ∨ p ∈ l := by
  induction l with
  | nil => simpa [assocInsert] using h
  | cons hd tl ih =>
    obtain ⟨k', v'⟩ := hd
    by_cases hk : k' = k
    · subst hk
      simp [assocInsert] at h
      rcases h with h | h
      · exact Or.inl h
      · exact Or.inr (List.mem_cons_of_mem _ h)
    · simp [assocInsert, hk] at h
      rcases h with h | h
      · exact Or.inr (by simp [h])
      · rcases ih h with h' | h'
        · exact Or.inl h'
        · exact Or.inr (List.mem_cons_of_mem _ h')

theorem mem_assocInsert_nodup {α : Type} {p : String × α} {k : String} {v : α}
    {l : List (String × α)} (hnd : (l.map Prod.fst).Nodup) (h : p ∈ assocInsert k v l) :
    p = (k, v) ∨ (p ∈ l ∧ p.1 ≠ k) := by
  induction l with
  | nil => simp [assocInsert] at h; exact Or.inl h
  | cons hd tl ih =>
    obtain ⟨k', v'⟩ := hd
    rw [List.map_cons, List.nodup_cons] at hnd
    by_cases hk : k' = k
    · subst hk
      simp only [assocInsert, if_pos rfl] at h
      rcases List.mem_cons.mp h with h | h
      · exact Or.inl h
      · refine Or.inr ⟨List.mem_cons_of_mem _ h, ?_⟩
        intro hpk
        refine hnd.1 ?_
        simpa [hpk] using List.mem_map_of_mem Prod.fst h
    · simp only [assocInsert, if_neg hk] at h
      rcases List.mem_cons.mp h with h | h
      · refine Or.inr ⟨by simp [h], ?_⟩
        rw [h]
        exact fun hh => hk hh
      · rcases ih hnd.2 h with h' | h'
        · exact Or.inl h'
        · exact Or.inr ⟨List.mem_cons_of_mem _ h'.1, h'.2⟩

theorem keys_assocInsert_nodup {α : Type} (k : String) (v : α) {l : List (String × α)}
    (hnd : (l.map Prod.fst).Nodup) : ((assocInsert k v l).map Prod.fst).Nodup := by
  induction l with
  | nil => simp [assocInsert]
  | cons hd tl ih =>
    obtain ⟨k', v'⟩ := hd
    rw [List.map_cons, List.nodup_cons] at hnd
    by_cases hk : k' = k
    · subst hk
      have hred : assocInsert k' v ((k', v') :: tl) = (k', v) :: tl := by
        simp [assocInsert]
      rw [hred, List.map_cons, List.nodup_cons]
      exact hnd
    · simp only [assocInsert, if_neg hk]
      rw [List.map_cons, List.nodup_cons]
      refine ⟨?_, ih hnd.2⟩
      intro hmem
      rw [List.mem_map] at hmem
      obtain ⟨p, hp, hpk⟩ := hmem
      rcases mem_assocInsert hp with h' | h'
      · apply hk
        rw [h'] at hpk
        exact hpk.symm
      · exact hnd.1 (List.mem_map.mpr ⟨p, h', hpk⟩)

theorem length_assocInsert_le {α : Type} (k : String) (v : α) (l : List (String × α)) :
    (assocInsert k v l).length ≤ l.length + 1 := by
  induction l with
  | nil => simp [assocInsert]
  | cons hd tl ih =>
    obtain ⟨k', v'⟩ := hd
    by_cases hk : k' = k
    · subst hk; simp [assocInsert]
    · simp [assocInsert, hk]
      omega

theorem assocInsert_eq_self {α : Type} {k : String} {v : α} {l : List (String × α)}
    (h : assocLookup k l = some v) : assocInsert k v l = l := by
  induction l with
  | nil => simp [assocLookup] at h
  | cons hd tl ih =>
    obtain ⟨k', v'⟩ := hd
    by_cases hk : k' = k
    · subst hk
      simp [assocLookup] at h
      simp [assocInsert, h]
    · simp [assocLookup, hk] at h
      simp [assocInsert, hk, ih h]

theorem assocErase_sublist {α : Type} (k : String) (l : List (String × α)) :
    List.Sublist (assocErase k l) l := by
  induction l with
  | nil => simp [assocErase]
  | cons hd tl ih =>
    obtain ⟨k', v'⟩ := hd
    by_cases hk : k' = k
    · subst hk
      have hred : assocErase k' ((k', v') :: tl) = tl := by simp [assocErase]
      rw [hred]
      exact List.sublist_cons_self _ _
    · simp only [assocErase, if_neg hk]
      exact List.Sublist.cons₂ (k', v') ih

theorem mem_assocErase {α : Type} {p : String × α} {k : String} {l : List (String × α)}
    (h : p ∈ assocErase k l) : p ∈ l :=
  (assocErase_sublist k l).mem h

theorem keys_assocErase_nodup {α : Type} (k : String) {l : List (String × α)}
    (hnd : (l.map Prod.fst).Nodup) : ((assocErase k l).map Prod.fst).Nodup :=
  hnd.sublist ((assocErase_sublist k l).map Prod.fst)

theorem assocLookup_erase_self {α : Type} {k : String} {l : List (String × α)}
    (hnd : (l.map Prod.fst).Nodup) : assocLookup k (assocErase k l) = none := by
  induction l with
  | nil => rfl
  | cons hd tl ih =>
    obtain ⟨k', v'⟩ := hd
    rw [List.map_cons, List.nodup_cons] at hnd
    by_cases hk : k' = k
    · subst hk
      have hred : assocErase k' ((k', v') :: tl) = tl := by simp [assocErase]
      rw [hred]
      exact assocLookup_eq_none hnd.1
    · simp only [assocErase, if_neg hk]
      simp [assocLookup, hk, ih hnd.2]

theorem length_assocErase_le {α : Type} (k : String) (l : List (String × α)) :
    (assocErase k l).length ≤ l.length :=
  (assocErase_sublist k l).length_le

theorem assocLookup_erase_ne {α : Type} {j k : String} (h : j ≠ k) (l : List (String × α)) :
    assocLookup j (assocErase k l) = assocLookup j l := by
  induction l with
  | nil => rfl
  | cons hd tl ih =>
    obtain ⟨k', v'⟩ := hd
    by_cases hk : k' = k
    · subst hk
      have h1 : ¬ (k' = j) := fun hh => h (hh.symm)
      simp [assocErase, assocLookup, h1]
    · by_cases hj : k' = j
      · subst hj; simp [assocErase, assocLookup, hk]
      · simp [assocErase, assocLookup, hk, hj, ih]

theorem isSome_assocLookup_insert {α : Type} {j k : String} (v : α) {l : List (String × α)}
    (h : (assocLookup j l).isSome = true ∨ j = k) :
    (assocLookup j (assocInsert k v l)).isSome = true := by
  by_cases hj : j = k
  · subst hj; simp [assocLookup_insert_self]
  · rcases h with h | h
    · rwa [assocLookup_insert_ne hj]
    · exact absurd h hj

/-! Section: Counting outstanding loans -/

theorem borrowedCount_insert_some {members : List (String × Member)} {m : String}
    {mem : Member} (mem' : Member) (h : assocLookup m members = some mem) (i : String) :
    borrowedCount (assocInsert m mem' members) i + (if holdsIsbn mem i then 1 else 0)
      = borrowedCount members i + (if holdsIsbn mem' i then 1 else 0) := by
  induction members with
  | nil => simp [assocLookup] at h
  | cons hd tl ih =>
    obtain ⟨k, w⟩ := hd
    by_cases hk : k = m
    · subst hk
      have hw : w = mem := by simpa [assocLookup] using h
      subst hw
      have hred : assocInsert k mem' ((k, w) :: tl) = (k, mem') :: tl := by
        simp [assocInsert]
      rw [hred]
      simp only [borrowedCount]
      omega
    · have h' : assocLookup m tl = some mem := by simpa [assocLookup, hk] using h
      have hred : assocInsert m mem' ((k, w) :: tl) = (k, w) :: assocInsert m mem' tl := by
        simp [assocInsert, hk]
      rw [hred]
      simp only [borrowedCount]
      have hih := ih h'
      omega

theorem borrowedCount_insert_none {members : List (String × Member)} {m : String}
    (mem' : Member) (h : assocLookup m members = none) (i : String) :
    borrowedCount (assocInsert m mem' members) i
      = borrowedCount members i + (if holdsIsbn mem' i then 1 else 0) := by
  induction members with
  | nil => simp [assocInsert, borrowedCount]
  | cons hd tl ih =>
    obtain ⟨k, w⟩ := hd
    have hk : ¬ (k = m) := by
      intro hh
      simp [assocLookup, hh] at h
    have h' : assocLookup m tl = none := by simpa [assocLookup, hk] using h
    have hred : assocInsert m mem' ((k, w) :: tl) = (k, w) :: assocInsert m mem' tl := by
      simp [assocInsert, hk]
    rw [hred]
    simp only [borrowedCount]
    have hih := ih h'
    omega

theorem borrowedCount_eq_zero {books : List (String × Book)}
    {members : List (String × Member)} {i : String}
    (hEx : ∀ p ∈ members, ∀ q ∈ p.2.borrowed_books, (assocLookup q.1 books).isSome = true)
    (hnone : assocLookup i books = none) : borrowedCount members i = 0 := by
  induction members with
  | nil => rfl
  | cons hd tl ih =>
    have hhd : holdsIsbn hd.2 i = false := by
      by_contra hcon
      rw [Bool.not_eq_false] at hcon
      unfold holdsIsbn at hcon
      rw [Option.isSome_iff_exists] at hcon
      obtain ⟨d, hd2⟩ := hcon
      have hmem := hEx hd (List.mem_cons_self _ _) (i, d) (assocLookup_mem hd2)
      rw [hnone] at hmem
      simp at hmem
    have hih := ih (fun p hp => hEx p (List.mem_cons_of_mem _ hp))
    simp [borrowedCount, hhd, hih]

/-! Section: State-shape inversion for the two mutating operations -/

theorem issue_book_state (s : LibrarySystem) (m i br : String) (t : Int) :
    ((issue_book s m i br t).1 = s ∧ ∀ d, (issue_book s m i br t).2 ≠ .issued d) ∨
    (∃ b, assocLookup i s.books = some b ∧ b.copies = 0 ∧ m ∉ b.waitlist ∧
      (issue_book s m i br t).1
        = { s with books := assocInsert i ({ b with waitlist := b.waitlist ++ [m] }) s.books } ∧
      (issue_book s m i br t).2 = .noAvailability) ∨
    (∃ mem b, assocLookup m s.members = some mem ∧ assocLookup i s.books = some b ∧
      ¬ b.copies = 0 ∧ ¬ 5 ≤ mem.borrowed_books.length ∧
      (issue_book s m i br t).1
        = { s with books := assocInsert i ({ b with copies := b.copies - 1 }) s.books,
                   members := assocInsert m
                     ({ mem with borrowed_books := assocInsert i (t + 14) mem.borrowed_books })
                     s.members } ∧
      (issue_book s m i br t).2 = .issued (t + 14)) := by
  unfold issue_book
  split
  · exact Or.inl ⟨rfl, by intro d; simp⟩
  · split
    · exact Or.inl ⟨rfl, by intro d; simp⟩
    next member heq =>
      split
      · exact Or.inl ⟨rfl, by intro d; simp⟩
      · split
        · exact Or.inl ⟨rfl, by intro d; simp⟩
        · split
          · exact Or.inl ⟨rfl, by intro d; simp⟩
          · split
            next hlim => exact Or.inl ⟨rfl, by intro d; simp⟩
            next hlim =>
              split
              · exact Or.inl ⟨rfl, by intro d; simp⟩
              next book heqb =>
                split
                next hz =>
                  unfold add_to_waitlist
                  split
                  next hnone =>
                    rw [heqb] at hnone
                    cases hnone
                  next b2 heq2 =>
                    rw [heqb] at heq2
                    cases heq2
                    split
                    next hin => exact Or.inl ⟨rfl, by intro d; simp⟩
                    next hnin =>
                      exact Or.inr (Or.inl ⟨book, heqb, hz, hnin, rfl, rfl⟩)
                next hz =>
                  split
                  · exact Or.inl ⟨rfl, by intro d; simp⟩
                  · exact Or.inr (Or.inr ⟨member, book, heq, heqb, hz, hlim, rfl, rfl⟩)

theorem return_book_state (s : LibrarySystem) (m i : String) (rd : Int) (cond : String)
    (t : Int) :
    ((return_book s m i rd cond t).1 = s ∧ (return_book s m i rd cond t).2 ≠ .returned ∧
      ¬ ∃ mem book due, assocLookup m s.members = some mem ∧
        assocLookup i s.books = some book ∧
        assocLookup i mem.borrowed_books = some due) ∨
    (∃ mem book due,
      assocLookup m s.members = some mem ∧ assocLookup i s.books = some book ∧
      assocLookup i mem.borrowed_books = some due ∧
      (return_book s m i rd cond t).1 = handle_waitlist
        { s with
            books := assocInsert i
              (if cond = "damaged" ∨ cond = "lost" then book
               else { book with copies := book.copies + 1 }) s.books,
            members := assocInsert m
              ({ mem with
                  borrowed_books := assocErase i mem.borrowed_books,
                  reading_times := mem.reading_times ++ [rd - (due - 14)],
                  history := mem.history ++ [book],
                  challenge_progress := mem.challenge_progress + 1,
                  fines := mem.fines + (if due < rd then (rd - due) * 5 else 0)
                    + (if cond = "damaged" then 100
                       else if cond = "lost" then 500 else 0) }) s.members } i t ∧
      (return_book s m i rd cond t).2 = .returned) := by
  unfold return_book
  split
  next heq =>
    refine Or.inl ⟨rfl, by simp, ?_⟩
    rintro ⟨mm, bb, dd, hmm, _, _⟩
    rw [heq] at hmm
    cases hmm
  next member heq =>
    split
    next heqb =>
      refine Or.inl ⟨rfl, by simp, ?_⟩
      rintro ⟨mm, bb, dd, hmm, hbb, _⟩
      rw [heq] at hmm
      cases hmm
      rw [heqb] at hbb
      cases hbb
    next book heqb =>
      split
      next heqd =>
        refine Or.inl ⟨rfl, by simp, ?_⟩
        rintro ⟨mm, bb, dd, hmm, hbb, hdd⟩
        rw [heq] at hmm
        cases hmm
        rw [heqd] at hdd
        cases hdd
      next due heqd =>
        exact Or.inr ⟨member, book, due, heq, heqb, heqd, rfl, rfl⟩

/-! Section: Frame lemmas for `issue_book` -/

theorem issue_book_members_fines (s : LibrarySystem) (m i br : String) (t : Int)
    (x : String) :
    (assocLookup x (issue_book s m i br t).1.members).map Member.fines
      = (assocLookup x s.members).map Member.fines := by
  rcases issue_book_state s m i br t with ⟨h, _⟩ | ⟨b, hb, _, _, h, _⟩ |
    ⟨mem, b, hm, hb, _, _, h, _⟩
  · rw [h]
  · rw [h]
  · rw [h]
    by_cases hx : x = m
    · subst hx
      simp [assocLookup_insert_self, hm]
    · simp [assocLookup_insert_ne hx]

theorem issue_book_member_ne (s : LibrarySystem) (m i br : String) (t : Int)
    {x : String} (hx : x ≠ m) :
    assocLookup x (issue_book s m i br t).1.members = assocLookup x s.members := by
  rcases issue_book_state s m i br t with ⟨h, _⟩ | ⟨b, hb, _, _, h, _⟩ |
    ⟨mem, b, hm, hb, _, _, h, _⟩
  · rw [h]
  · rw [h]
  · rw [h]
    simp [assocLookup_insert_ne hx]

theorem issue_book_book_ne_zero (s : LibrarySystem) (m i br : String) (t : Int)
    {b : Book} (hb : assocLookup i s.books = some b) (hc : ¬ b.copies = 0) :
    ∃ b', assocLookup i (issue_book s m i br t).1.books = some b' ∧
      b'.waitlist = b.waitlist ∧ b'.total_copies = b.total_copies ∧
      (b'.copies = b.copies ∨ b'.copies = b.copies - 1) := by
  rcases issue_book_state s m i br t with ⟨h, _⟩ | ⟨b0, hb0, hz, _, h, _⟩ |
    ⟨mem, b0, hm, hb0, _, _, h, _⟩
  · exact ⟨b, by rw [h, hb], rfl, rfl, Or.inl rfl⟩
  · rw [hb] at hb0
    cases hb0
    exact absurd hz hc
  · rw [hb] at hb0
    cases hb0
    refine ⟨{ b with copies := b.copies - 1 }, ?_, rfl, rfl, Or.inr rfl⟩
    rw [h]
    simp [assocLookup_insert_self]

/-! Section: The waitlist drain loop -/

theorem handle_go_pres (P : LibrarySystem → Prop)
    (hIssue : ∀ s m i br t, P s → P (issue_book s m i br t).1)
    (hWl : ∀ s i b wl, P s → assocLookup i s.books = some b →
      P { s with books := assocInsert i ({ b with waitlist := wl }) s.books }) :
    ∀ (fuel : Nat) (s : LibrarySystem) (isbn : String) (today : Int),
      P s → P (handle_go isbn today fuel s) := by
  intro fuel
  induction fuel with
  | zero => intro s isbn today h; exact h
  | succ n ih =>
    intro s isbn today h
    cases hb : assocLookup isbn s.books with
    | none => simp only [handle_go, hb]; exact h
    | some b =>
      cases hwl : b.waitlist with
      | nil => simp only [handle_go, hb, hwl]; exact h
      | cons next_member rest =>
        simp only [handle_go, hb, hwl]
        by_cases hc : 0 < b.copies
        · rw [if_pos hc]
          exact ih _ _ _ (hIssue _ _ _ _ _ (hWl _ _ _ _ h hb))
        · rw [if_neg hc]
          exact h

theorem handle_go_fines :
    ∀ (fuel : Nat) (s : LibrarySystem) (isbn : String) (today : Int) (x : String),
      (assocLookup x (handle_go isbn today fuel s).members).map Member.fines
        = (assocLookup x s.members).map Member.fines := by
  intro fuel
  induction fuel with
  | zero => intro s isbn today x; rfl
  | succ n ih =>
    intro s isbn today x
    cases hb : assocLookup isbn s.books with
    | none => simp only [handle_go, hb]
    | some b =>
      cases hwl : b.waitlist with
      | nil => simp only [handle_go, hb, hwl]
      | cons next_member rest =>
        simp only [handle_go, hb, hwl]
        by_cases hc : 0 < b.copies
        · rw [if_pos hc, ih, issue_book_members_fines]
        · rw [if_neg hc]

theorem handle_waitlist_fines (s : LibrarySystem) (isbn : String) (today : Int)
    (x : String) :
    (assocLookup x (handle_waitlist s isbn today).members).map Member.fines
      = (assocLookup x s.members).map Member.fines := by
  unfold handle_waitlist
  split
  · rfl
  · rw [handle_go_fines]

theorem handle_go_member_notin (m : String) :
    ∀ (fuel : Nat) (s : LibrarySystem) (isbn : String) (today : Int),
      (∀ b, assocLookup isbn s.books = some b → m ∉ b.waitlist) →
      assocLookup m (handle_go isbn today fuel s).members = assocLookup m s.members := by
  intro fuel
  induction fuel with
  | zero => intro s isbn today hw; rfl
  | succ n ih =>
    intro s isbn today hw
    cases hb : assocLookup isbn s.books with
    | none => simp only [handle_go, hb]
    | some b =>
      cases hwl : b.waitlist with
      | nil => simp only [handle_go, hb, hwl]
      | cons next_member rest =>
        simp only [handle_go, hb, hwl]
        by_cases hc : 0 < b.copies
        · rw [if_pos hc]
          have hmw := hw b hb
          rw [hwl] at hmw
          have hmne : m ≠ next_member := fun hh => hmw (hh ▸ List.mem_cons_self _ _)
          have hmrest : m ∉ rest := fun hh => hmw (List.mem_cons_of_mem _ hh)
          have hb1 : assocLookup isbn
              ({ s with books := assocInsert isbn ({ b with waitlist := rest }) s.books }).books
              = some ({ b with waitlist := rest }) := assocLookup_insert_self _ _ _
          have hcne : ¬ ({ b with waitlist := rest } : Book).copies = 0 := by
            show ¬ b.copies = 0
            omega
          obtain ⟨b', hb', hwl', _, _⟩ :=
            issue_book_book_ne_zero _ next_member isbn "auto" today hb1 hcne
          have hside : ∀ b'', assocLookup isbn
              (issue_book { s with books := assocInsert isbn ({ b with waitlist := rest }) s.books }
                next_member isbn "auto" today).1.books = some b'' → m ∉ b''.waitlist := by
            intro b'' hb''
            rw [hb'] at hb''
            cases hb''
            rw [hwl']
            exact hmrest
          rw [ih _ _ _ hside, issue_book_member_ne _ _ _ _ _ hmne]
        · rw [if_neg hc]

theorem handle_go_waitlist_subset :
    ∀ (fuel : Nat) (s : LibrarySystem) (isbn : String) (today : Int) (x : String) (b' : Book),
      assocLookup isbn (handle_go isbn today fuel s).books = some b' → x ∈ b'.waitlist →
      ∃ b, assocLookup isbn s.books = some b ∧ x ∈ b.waitlist := by
  intro fuel
  induction fuel with
  | zero => intro s isbn today x b' hb' hx; exact ⟨b', hb', hx⟩
  | succ n ih =>
    intro s isbn today x b' hb' hx
    cases hb : assocLookup isbn s.books with
    | none =>
      simp only [handle_go, hb] at hb'
      exact ⟨b', hb', hx⟩
    | some b =>
      cases hwl : b.waitlist with
      | nil =>
        simp only [handle_go, hb, hwl] at hb'
        exact ⟨b', hb', hx⟩
      | cons next_member rest =>
        by_cases hc : 0 < b.copies
        · simp only [handle_go, hb, hwl, if_pos hc] at hb'
          obtain ⟨bb, hbb, hxbb⟩ := ih _ _ _ _ _ hb' hx
          have hb1 : assocLookup isbn
              ({ s with books := assocInsert isbn ({ b with waitlist := rest }) s.books }).books
              = some ({ b with waitlist := rest }) := assocLookup_insert_self _ _ _
          have hcne : ¬ ({ b with waitlist := rest } : Book).copies = 0 := by
            show ¬ b.copies = 0
            omega
          obtain ⟨b2, hb2, hwl2, _, _⟩ :=
            issue_book_book_ne_zero _ next_member isbn "auto" today hb1 hcne
          rw [hb2] at hbb
          cases hbb
          rw [hwl2] at hxbb
          refine ⟨b, rfl, ?_⟩
          rw [hwl]
          exact List.mem_cons_of_mem _ hxbb
        · simp only [handle_go, hb, hwl, if_neg hc] at hb'
          exact ⟨b', hb', hx⟩

/-! Section: Preservation of the inductive invariant -/

theorem inv_setWl {s : LibrarySystem} {i : String} {b : Book} (h : Inv s)
    (hb : assocLookup i s.books = some b) (wl : List String) :
    Inv { s with books := assocInsert i ({ b with waitlist := wl }) s.books } := by
  obtain ⟨hbn, hmn, hex, hcnt⟩ := h
  refine ⟨keys_assocInsert_nodup _ _ hbn, hmn, ?_, ?_⟩
  · intro p hp q hq
    exact isSome_assocLookup_insert _ (Or.inl (hex p hp q hq))
  · intro p hp
    rcases mem_assocInsert_nodup hbn hp with hpe | ⟨hpm, _⟩
    · rw [hpe]
      exact hcnt (i, b) (assocLookup_mem hb)
    · exact hcnt p hpm

theorem inv_issue {s : LibrarySystem} (m i br : String) (t : Int) (h : Inv s) :
    Inv (issue_book s m i br t).1 := by
  rcases issue_book_state s m i br t with ⟨heq, _⟩ | ⟨b, hb, _, _, heq, _⟩ |
    ⟨mem, b, hm, hb, hcz, _, heq, _⟩
  · rw [heq]; exact h
  · rw [heq]; exact inv_setWl h hb _
  · rw [heq]
    obtain ⟨hbn, hmn, hex, hcnt⟩ := h
    have hmemnd := hmn (m, mem) (assocLookup_mem hm)
    refine ⟨keys_assocInsert_nodup _ _ hbn, ?_, ?_, ?_⟩
    · intro p hp
      rcases mem_assocInsert hp with hpe | hpm
      · rw [hpe]
        exact keys_assocInsert_nodup _ _ hmemnd
      · exact hmn p hpm
    · intro p hp q hq
      rcases mem_assocInsert hp with hpe | hpm
      · rw [hpe] at hq
        have hq' : q ∈ assocInsert i (t + 14) mem.borrowed_books := hq
        rcases mem_assocInsert hq' with hqe | hqm
        · rw [hqe]
          exact isSome_assocLookup_insert _ (Or.inr rfl)
        · exact isSome_assocLookup_insert _
            (Or.inl (hex (m, mem) (assocLookup_mem hm) q hqm))
      · exact isSome_assocLookup_insert _ (Or.inl (hex p hpm q hq))
    · intro p hp
      have hcb := borrowedCount_insert_some
        ({ mem with borrowed_books := assocInsert i (t + 14) mem.borrowed_books }) hm
      rcases mem_assocInsert_nodup hbn hp with hpe | ⟨hpm, hpne⟩
      · rw [hpe]
        have hold := hcnt (i, b) (assocLookup_mem hb)
        dsimp only at hold
        have hcbi := hcb i
        have hnew : holdsIsbn
            ({ mem with borrowed_books := assocInsert i (t + 14) mem.borrowed_books }) i
            = true := by
          unfold holdsIsbn
          dsimp only
          rw [assocLookup_insert_self]
          rfl
        rw [hnew] at hcbi
        simp only [if_true] at hcbi
        refine ⟨?_, ?_⟩
        · show (0:Int) ≤ b.copies - 1
          omega
        · show b.copies - 1 + (borrowedCount (assocInsert m
            ({ mem with borrowed_books := assocInsert i (t + 14) mem.borrowed_books })
            s.members) i : Int) ≤ b.total_copies
          have h2 := hold.2
          omega
      · have hold := hcnt p hpm
        have hcbp := hcb p.1
        have hsame : holdsIsbn
            ({ mem with borrowed_books := assocInsert i (t + 14) mem.borrowed_books }) p.1
            = holdsIsbn mem p.1 := by
          show (assocLookup p.1 (assocInsert i (t + 14) mem.borrowed_books)).isSome
            = (assocLookup p.1 mem.borrowed_books).isSome
          rw [assocLookup_insert_ne hpne]
        rw [hsame] at hcbp
        have heqc : borrowedCount (assocInsert m
            ({ mem with borrowed_books := assocInsert i (t + 14) mem.borrowed_books })
            s.members) p.1 = borrowedCount s.members p.1 := by omega
        refine ⟨hold.1, ?_⟩
        rw [heqc]
        exact hold.2

theorem inv_handle_waitlist {s : LibrarySystem} (isbn : String) (today : Int)
    (h : Inv s) : Inv (handle_waitlist s isbn today) := by
  unfold handle_waitlist
  split
  · exact h
  · exact handle_go_pres Inv (fun s m i br t hh => inv_issue m i br t hh)
      (fun s i b wl hh hb => inv_setWl hh hb wl) _ _ _ _ h

theorem inv_return {s : LibrarySystem} (m i : String) (rd : Int) (cond : String)
    (t : Int) (h : Inv s) : Inv (return_book s m i rd cond t).1 := by
  rcases return_book_state s m i rd cond t with ⟨heq, _, _⟩ |
    ⟨mem, book, due, hm, hb, hd, heq, _⟩
  · rw [heq]; exact h
  · rw [heq]
    apply inv_handle_waitlist
    obtain ⟨hbn, hmn, hex, hcnt⟩ := h
    have hmemnd := hmn (m, mem) (assocLookup_mem hm)
    set mem' : Member :=
      { mem with
          borrowed_books := assocErase i mem.borrowed_books,
          reading_times := mem.reading_times ++ [rd - (due - 14)],
          history := mem.history ++ [book],
          challenge_progress := mem.challenge_progress + 1,
          fines := mem.fines + (if due < rd then (rd - due) * 5 else 0)
            + (if cond = "damaged" then 100
               else if cond = "lost" then 500 else 0) } with hmem'
    set book' : Book :=
      (if cond = "damaged" ∨ cond = "lost" then book
       else { book with copies := book.copies + 1 }) with hbook'
    have hsame_ne : ∀ x, x ≠ i → holdsIsbn mem' x = holdsIsbn mem x := by
      intro x hx
      rw [hmem']
      show (assocLookup x (assocErase i mem.borrowed_books)).isSome
        = (assocLookup x mem.borrowed_books).isSome
      rw [assocLookup_erase_ne hx]
    have hnew : holdsIsbn mem' i = false := by
      rw [hmem']
      show (assocLookup i (assocErase i mem.borrowed_books)).isSome = false
      rw [assocLookup_erase_self hmemnd]
      rfl
    have hheld : holdsIsbn mem i = true := by
      unfold holdsIsbn
      rw [hd]
      rfl
    have hcb := borrowedCount_insert_some mem' hm
    refine ⟨keys_assocInsert_nodup _ _ hbn, ?_, ?_, ?_⟩
    · intro p hp
      rcases mem_assocInsert hp with hpe | hpm
      · rw [hpe, hmem']
        exact keys_assocErase_nodup _ hmemnd
      · exact hmn p hpm
    · intro p hp q hq
      rcases mem_assocInsert hp with hpe | hpm
      · rw [hpe, hmem'] at hq
        have hq' : q ∈ assocErase i mem.borrowed_books := hq
        exact isSome_assocLookup_insert _
          (Or.inl (hex (m, mem) (assocLookup_mem hm) q (mem_assocErase hq')))
      · exact isSome_assocLookup_insert _ (Or.inl (hex p hpm q hq))
    · intro p hp
      rcases mem_assocInsert_nodup hbn hp with hpe | ⟨hpm, hpne⟩
      · have hold := hcnt (i, book) (assocLookup_mem hb)
        dsimp only at hold
        have hcbi := hcb i
        rw [hheld, hnew] at hcbi
        simp at hcbi
        by_cases hcond : cond = "damaged" ∨ cond = "lost"
        · have hbk : book' = book := by rw [hbook']; exact if_pos hcond
          rw [hpe, hbk]
          refine ⟨hold.1, ?_⟩
          show book.copies + (borrowedCount (assocInsert m mem' s.members) i : Int)
            ≤ book.total_copies
          have h2 := hold.2
          omega
        · have hbk : book' = { book with copies := book.copies + 1 } := by
            rw [hbook']; exact if_neg hcond
          rw [hpe, hbk]
          refine ⟨?_, ?_⟩
          · show (0:Int) ≤ book.copies + 1
            have h1 := hold.1
            omega
          · show book.copies + 1 + (borrowedCount (assocInsert m mem' s.members) i : Int)
              ≤ book.total_copies
            have h2 := hold.2
            omega
      · have hold := hcnt p hpm
        have hcbp := hcb p.1
        rw [hsame_ne p.1 hpne] at hcbp
        have heqc : borrowedCount (assocInsert m mem' s.members) p.1
            = borrowedCount s.members p.1 := by omega
        refine ⟨hold.1, ?_⟩
        rw [heqc]
        exact hold.2

theorem inv_members_insert_empty {s : LibrarySystem} (m : String) (newMem : Member)
    (hemp : newMem.borrowed_books = []) (h : Inv s) :
    Inv { s with members := assocInsert m newMem s.members } := by
  obtain ⟨hbn, hmn, hex, hcnt⟩ := h
  refine ⟨hbn, ?_, ?_, ?_⟩
  · intro p hp
    rcases mem_assocInsert hp with hpe | hpm
    · rw [hpe]
      show (newMem.borrowed_books.map Prod.fst).Nodup
      rw [hemp]
      exact List.nodup_nil
    · exact hmn p hpm
  · intro p hp q hq
    rcases mem_assocInsert hp with hpe | hpm
    · rw [hpe] at hq
      have hq' : q ∈ newMem.borrowed_books := hq
      rw [hemp] at hq'
      cases hq'
    · exact hex p hpm q hq
  · intro p hp
    have hold := hcnt p hp
    have hnew : holdsIsbn newMem p.1 = false := by
      unfold holdsIsbn
      rw [hemp]
      rfl
    refine ⟨hold.1, ?_⟩
    cases hm : assocLookup m s.members with
    | none =>
      have hcb := borrowedCount_insert_none newMem hm p.1
      rw [hnew] at hcb
      simp at hcb
      rw [hcb]
      exact hold.2
    | some memOld =>
      have hcb := borrowedCount_insert_some newMem hm p.1
      rw [hnew] at hcb
      simp at hcb
      have h2 := hold.2
      show p.2.copies + (borrowedCount (assocInsert m newMem s.members) p.1 : Int)
        ≤ p.2.total_copies
      omega

theorem inv_register {s : LibrarySystem} (m name contact mtype : String) (today : Int)
    (h : Inv s) : Inv (register_member s m name contact mtype today) :=
  inv_members_insert_empty m _ rfl h

theorem inv_add_book {s : LibrarySystem} (i title author genre : String) (c : Int)
    (bt : String) (hc : 0 ≤ c) (h : Inv s) : Inv (add_book s i title author genre c bt) := by
  obtain ⟨hbn, hmn, hex, hcnt⟩ := h
  unfold add_book
  cases hb : assocLookup i s.books with
  | none =>
    simp only [hb]
    refine ⟨keys_assocInsert_nodup _ _ hbn, hmn, ?_, ?_⟩
    · intro p hp q hq
      exact isSome_assocLookup_insert _ (Or.inl (hex p hp q hq))
    · intro p hp
      rcases mem_assocInsert_nodup hbn hp with hpe | ⟨hpm, _⟩
      · rw [hpe]
        have hzero := borrowedCount_eq_zero hex hb
        refine ⟨hc, ?_⟩
        show c + (borrowedCount s.members i : Int) ≤ c
        rw [hzero]
        simp
      · exact hcnt p hpm
  | some b =>
    simp only [hb]
    refine ⟨keys_assocInsert_nodup _ _ hbn, hmn, ?_, ?_⟩
    · intro p hp q hq
      exact isSome_assocLookup_insert _ (Or.inl (hex p hp q hq))
    · intro p hp
      rcases mem_assocInsert_nodup hbn hp with hpe | ⟨hpm, _⟩
      · rw [hpe]
        have hold := hcnt (i, b) (assocLookup_mem hb)
        dsimp only at hold
        refine ⟨?_, ?_⟩
        · show (0:Int) ≤ b.copies + c
          have h1 := hold.1
          omega
        · show b.copies + c + (borrowedCount s.members i : Int) ≤ b.total_copies + c
          have h2 := hold.2
          omega
      · exact hcnt p hpm

theorem inv_add_library_branch {s : LibrarySystem} (bid loc hours : String) (h : Inv s) :
    Inv (add_library_branch s bid loc hours) :=
  ⟨h.booksNodup, h.borrowNodup, h.borrowKeysExist, h.counts⟩

theorem inv_step {s : LibrarySystem} {op : Op} (hop : opCopiesNonneg op = true)
    (h : Inv s) : Inv (step s op) := by
  cases op with
  | opAddBranch bid loc hours => exact inv_add_library_branch bid loc hours h
  | opAddBook i title author genre c bt =>
    have hc : 0 ≤ c := of_decide_eq_true hop
    exact inv_add_book i title author genre c bt hc h
  | opRegister m name contact mtype today => exact inv_register m name contact mtype today h
  | opIssue m i br today => exact inv_issue m i br today h
  | opReturn m i rd cond today => exact inv_return m i rd cond today h

theorem inv_run :
    ∀ (ops : List Op) (s : LibrarySystem), (∀ op ∈ ops, opCopiesNonneg op = true) →
      Inv s → Inv (run s ops) := by
  intro ops
  induction ops with
  | nil => intro s _ h; exact h
  | cons op rest ih =>
    intro s hops h
    exact ih (step s op) (fun o ho => hops o (List.mem_cons_of_mem _ ho))
      (inv_step (hops op (List.mem_cons_self _ _)) h)

theorem inv_initState : Inv initState := by
  refine ⟨?_, ?_, ?_, ?_⟩ <;> simp [initState]

/-! Section: Preservation of the five-book limit -/

theorem limit_issue {s : LibrarySystem} (m i br : String) (t : Int) (h : BorrowLimit s) :
    BorrowLimit (issue_book s m i br t).1 := by
  rcases issue_book_state s m i br t with ⟨heq, _⟩ | ⟨b, hb, _, _, heq, _⟩ |
    ⟨mem, b, hm, hb, _, hlim, heq, _⟩
  · rw [heq]; exact h
  · rw [heq]; exact h
  · rw [heq]
    intro p hp
    rcases mem_assocInsert hp with hpe | hpm
    · rw [hpe]
      show (assocInsert i (t + 14) mem.borrowed_books).length ≤ 5
      have hle := length_assocInsert_le i (t + 14) mem.borrowed_books
      omega
    · exact h p hpm

theorem limit_handle_waitlist {s : LibrarySystem} (isbn : String) (today : Int)
    (h : BorrowLimit s) : BorrowLimit (handle_waitlist s isbn today) := by
  unfold handle_waitlist
  split
  · exact h
  · exact handle_go_pres BorrowLimit (fun s m i br t hh => limit_issue m i br t hh)
      (fun s i b wl hh _ => hh) _ _ _ _ h

theorem limit_return {s : LibrarySystem} (m i : String) (rd : Int) (cond : String)
    (t : Int) (h : BorrowLimit s) : BorrowLimit (return_book s m i rd cond t).1 := by
  rcases return_book_state s m i rd cond t with ⟨heq, _, _⟩ |
    ⟨mem, book, due, hm, hb, hd, heq, _⟩
  · rw [heq]; exact h
  · rw [heq]
    apply limit_handle_waitlist
    intro p hp
    rcases mem_assocInsert hp with hpe | hpm
    · rw [hpe]
      show (assocErase i mem.borrowed_books).length ≤ 5
      have hle := length_assocErase_le i mem.borrowed_books
      have hmem : mem.borrowed_books.length ≤ 5 := h (m, mem) (assocLookup_mem hm)
      omega
    · exact h p hpm

theorem limit_register {s : LibrarySystem} (m name contact mtype : String) (today : Int)
    (h : BorrowLimit s) : BorrowLimit (register_member s m name contact mtype today) := by
  intro p hp
  rcases mem_assocInsert hp with hpe | hpm
  · rw [hpe]
    show ([] : List (String × Int)).length ≤ 5
    simp
  · exact h p hpm

theorem limit_step {s : LibrarySystem} (op : Op) (h : BorrowLimit s) :
    BorrowLimit (step s op) := by
  cases op with
  | opAddBranch bid loc hours => exact h
  | opAddBook i title author genre c bt =>
    unfold step add_book
    cases hb : assocLookup i s.books with
    | none => simp only [hb]; exact h
    | some b => simp only [hb]; exact h
  | opRegister m name contact mtype today => exact limit_register m name contact mtype today h
  | opIssue m i br today => exact limit_issue m i br today h
  | opReturn m i rd cond today => exact limit_return m i rd cond today h

theorem limit_run : ∀ (ops : List Op) (s : LibrarySystem),
    BorrowLimit s → BorrowLimit (run s ops) := by
  intro ops
  induction ops with
  | nil => intro s h; exact h
  | cons op rest ih => intro s h; exact ih (step s op) (limit_step op h)

theorem limit_initState : BorrowLimit initState := by
  intro p hp
  simp [initState] at hp

/-! Section: Claim C1 and C7 -/

/-- Claim C1: for every book and after every sequence of `add_book`,
`issue_book` and `return_book` operations (with non-negative copy counts
supplied to `add_book`), the invariant `0 ≤ copies ≤ total_copies` holds. -/
theorem copies_le_total_invariant (ops : List Op)
    (hops : ∀ op ∈ ops, opCopiesNonneg op = true) :
    ∀ p ∈ (run initState ops).books, 0 ≤ p.2.copies ∧ p.2.copies ≤ p.2.total_copies := by
  intro p hp
  have hinv := inv_run ops initState hops inv_initState
  obtain ⟨h1, h2⟩ := hinv.counts p hp
  exact ⟨h1, by omega⟩

/-- Witness for C1 at a concrete run: add two copies, register a member and
issue one copy; the remaining book satisfies the invariant. -/
theorem copies_le_total_invariant_witness :
    ("b", bookIssued) ∈ (run initState opsIssued).books ∧
    0 ≤ bookIssued.copies ∧ bookIssued.copies ≤ bookIssued.total_copies := by
  have hops : ∀ op ∈ opsIssued, opCopiesNonneg op = true := by decide
  have hmem : ("b", bookIssued) ∈ (run initState opsIssued).books := by decide
  exact ⟨hmem, copies_le_total_invariant opsIssued hops ("b", bookIssued) hmem⟩

/-- Claim C7: for every member and after every sequence of operations,
`len(borrowed_books) ≤ 5`. -/
theorem borrow_limit_invariant (ops : List Op) :
    ∀ p ∈ (run initState ops).members, p.2.borrowed_books.length ≤ 5 :=
  limit_run ops initState limit_initState

/-- Witness for C7 at a concrete run. -/
theorem borrow_limit_invariant_witness :
    ("m", memIssued) ∈ (run initState opsIssued).members ∧
    memIssued.borrowed_books.length ≤ 5 := by
  have hmem : ("m", memIssued) ∈ (run initState opsIssued).members := by decide
  exact ⟨hmem, borrow_limit_invariant opsIssued ("m", memIssued) hmem⟩

/-! Section: Claim C3 -/

theorem handle_waitlist_insert_nil {b : Book} (hwl : b.waitlist = [])
    (br : List (String × Branch)) (bl : List (String × Book))
    (ms : List (String × Member)) (st : String) (isbn : String) (today : Int) :
    handle_waitlist
      { branches := br, books := assocInsert isbn b bl, members := ms, system_status := st }
      isbn today
      = { branches := br, books := assocInsert isbn b bl, members := ms,
          system_status := st } := by
  unfold handle_waitlist
  simp only [assocLookup_insert_self, hwl, List.length_nil, handle_go]

/-- Counterexample to claim C3 as stated: in `sWaiting`, member `w` is on the
waitlist of book `b` while one copy is available.  Member `m` successfully
issues `b` (copies 1 → 0) and returns it the same day in `good` condition,
but the waitlist promotion inside `return_book` immediately auto-issues the
restored copy to `w`, so `availableCopies` ends at 0, not at its pre-issue
value 1. -/
theorem roundtrip_waitlist_cex :
    (assocLookup "b" sWaiting.books).map Book.copies = some 1 ∧
    (issue_book sWaiting "m" "b" "br" 0).2 = IssueResult.issued 14 ∧
    (assocLookup "b"
      (return_book (issue_book sWaiting "m" "b" "br" 0).1 "m" "b" 0 "good" 0).1.books).map
      Book.copies = some 0 ∧
    ¬ ((0 : Int) = 1) :=
  ⟨rfl, rfl, rfl, by decide⟩

/-- Claim C3 (amended): when the book's waitlist is empty, a successful
`issue_book` immediately followed by `return_book` of the same isbn on the
same day with condition `good` leaves the book's `copies` and `total_copies`
equal to their pre-issue values, appends exactly one entry to the member's
history, and increments the member's challenge progress by exactly 1.  (The
amendment adds the empty-waitlist proviso: otherwise the promotion cascade
may hand the restored copy to a waitlisted member, see the counterexample.) -/
theorem roundtrip_restores
    (s s1 : LibrarySystem) (m i br : String) (today due : Int) (b : Book) (mem : Member)
    (hb : assocLookup i s.books = some b)
    (hwl : b.waitlist = [])
    (hm : assocLookup m s.members = some mem)
    (hiss : issue_book s m i br today = (s1, .issued due)) :
    (assocLookup i (return_book s1 m i today "good" today).1.books).map Book.copies
      = some b.copies ∧
    (assocLookup i (return_book s1 m i today "good" today).1.books).map Book.total_copies
      = some b.total_copies ∧
    (assocLookup m (return_book s1 m i today "good" today).1.members).map
      (fun mm => mm.history.length) = some (mem.history.length + 1) ∧
    (assocLookup m (return_book s1 m i today "good" today).1.members).map
      Member.challenge_progress = some (mem.challenge_progress + 1) := by
  rcases issue_book_state s m i br today with ⟨heq, hres⟩ | ⟨b0, hb0, _, _, heq, hres⟩ |
    ⟨mem0, b0, hm0, hb0, hcz, _, heq, hres⟩
  · rw [hiss] at hres
    exact absurd rfl (hres due)
  · rw [hiss] at hres
    simp at hres
  · rw [hm] at hm0
    cases hm0
    rw [hb] at hb0
    cases hb0
    rw [hiss] at heq
    have hs1 : s1 = _ := heq
    subst hs1
    unfold return_book
    simp only [assocLookup_insert_self]
    have hng : ¬ ("good" = "damaged" ∨ "good" = "lost") := by simp
    rw [if_neg hng, hwl]
    rw [handle_waitlist_insert_nil rfl]
    refine ⟨?_, ?_, ?_, ?_⟩
    · simp [assocLookup_insert_self]
    · simp [assocLookup_insert_self]
    · simp [assocLookup_insert_self]
    · simp [assocLookup_insert_self]

/-- Witness for C3 at a concrete run: the issue-then-return round trip on
`sRW` (two copies, empty waitlist) restores the book counters and bumps the
member's history and challenge progress. -/
theorem roundtrip_restores_witness :
    (assocLookup "b"
      (return_book (issue_book sRW "m" "b" "br" 0).1 "m" "b" 0 "good" 0).1.books).map
      Book.copies = some bookRW.copies ∧
    (assocLookup "b"
      (return_book (issue_book sRW "m" "b" "br" 0).1 "m" "b" 0 "good" 0).1.books).map
      Book.total_copies = some bookRW.total_copies ∧
    (assocLookup "m"
      (return_book (issue_book sRW "m" "b" "br" 0).1 "m" "b" 0 "good" 0).1.members).map
      (fun mm => mm.history.length) = some (memRW.history.length + 1) ∧
    (assocLookup "m"
      (return_book (issue_book sRW "m" "b" "br" 0).1 "m" "b" 0 "good" 0).1.members).map
      Member.challenge_progress = some (memRW.challenge_progress + 1) :=
  roundtrip_restores sRW (issue_book sRW "m" "b" "br" 0).1 "m" "b" "br" 0 14 bookRW memRW
    rfl rfl rfl rfl

/-! Section: Claim C2 -/

/-- Counterexample to claim C2 as stated: in `sIssued`, member `m` already
holds isbn `b` (due day 14, one copy left), yet a second `issue_book` on day
1 succeeds — it returns `issued 15`, decrements `copies` from 1 to 0 and
overwrites the stored due date from 14 to 15.  `issue_book` has no
already-borrowed check at all. -/
theorem issue_reborrow_cex :
    (assocLookup "m" sIssued.members).map (fun mm => assocLookup "b" mm.borrowed_books)
      = some (some 14) ∧
    (assocLookup "b" sIssued.books).map Book.copies = some 1 ∧
    (issue_book sIssued "m" "b" "br" 1).2 = IssueResult.issued 15 ∧
    (assocLookup "b" (issue_book sIssued "m" "b" "br" 1).1.books).map Book.copies
      = some 0 ∧
    (assocLookup "m" (issue_book sIssued "m" "b" "br" 1).1.members).map
      (fun mm => assocLookup "b" mm.borrowed_books) = some (some 15) :=
  ⟨rfl, rfl, rfl, rfl, rfl⟩

/-- Claim C2 (amended): `issue_book` performs no already-borrowed check.  If
the isbn is already a key of the member's `borrowed_books` and the other
guards pass (system online, consent given, membership unexpired, no overdue
book, fewer than five loans, copies available, member not in the waitlist),
the issue succeeds anyway: it decrements `copies` once more and overwrites
the stored due date with `today + 14`. -/
theorem issue_reborrow_succeeds
    (s : LibrarySystem) (m i br : String) (today due0 : Int) (mem : Member) (b : Book)
    (hon : s.system_status = "online")
    (hm : assocLookup m s.members = some mem)
    (hcons : mem.privacy_consent = true)
    (hexp : ¬ mem.membership_expiry < today)
    (hod : mem.borrowed_books.any (fun p => decide (p.2 < today)) = false)
    (hlim : mem.borrowed_books.length < 5)
    (hprev : assocLookup i mem.borrowed_books = some due0)
    (hb : assocLookup i s.books = some b)
    (hc : ¬ b.copies = 0)
    (hq : m ∉ b.waitlist) :
    (issue_book s m i br today).2 = .issued (today + 14) ∧
    (assocLookup i (issue_book s m i br today).1.books).map Book.copies
      = some (b.copies - 1) ∧
    (assocLookup m (issue_book s m i br today).1.members).map
      (fun mm => assocLookup i mm.borrowed_books) = some (some (today + 14)) := by
  have hlim2 : ¬ 5 ≤ mem.borrowed_books.length := by omega
  unfold issue_book
  simp only [hon, hm, hcons, hod, hb, hexp, hlim2, hc, hq]
  simp [assocLookup_insert_self]

/-- Witness for C2's amended claim on `sIssued`: the member re-borrows the
book they already hold. -/
theorem issue_reborrow_succeeds_witness :
    (issue_book sIssued "m" "b" "br" 1).2 = .issued (1 + 14) ∧
    (assocLookup "b" (issue_book sIssued "m" "b" "br" 1).1.books).map Book.copies
      = some (bookIssued.copies - 1) ∧
    (assocLookup "m" (issue_book sIssued "m" "b" "br" 1).1.members).map
      (fun mm => assocLookup "b" mm.borrowed_books) = some (some (1 + 14)) :=
  issue_reborrow_succeeds sIssued "m" "b" "br" 1 14 memIssued bookIssued rfl rfl rfl
    (by decide) rfl (by decide) rfl rfl (by decide) (by decide)

/-! Section: Claim C4 -/

/-- Counterexample to claim C4 as stated: in `sZero`, book `b` has zero
copies, but the issuing member's membership has expired (day 400 > expiry
365).  The expiry guard runs before the zero-copies branch, so `issue_book`
reports `expired` and the member is NOT added to the waitlist. -/
theorem issue_no_copies_expired_cex :
    (assocLookup "b" sZero.books).map Book.copies = some 0 ∧
    (issue_book sZero "m" "b" "br" 400).2 = IssueResult.expired ∧
    (assocLookup "b" (issue_book sZero "m" "b" "br" 400).1.books).map
      (fun bb => decide ("m" ∈ bb.waitlist)) = some false :=
  ⟨rfl, rfl, rfl⟩

/-- Claim C4 (amended): when the book has zero copies AND the member passes
the earlier guards (system online, consent, unexpired, no overdue, under the
limit), `issue_book` reports `noAvailability`, never decrements `copies`,
appends the member to the waitlist only when absent (so they appear exactly
once), and repeating the call leaves the state unchanged. -/
theorem issue_no_copies_waitlists
    (s : LibrarySystem) (m i br : String) (today : Int) (mem : Member) (b : Book)
    (hon : s.system_status = "online")
    (hm : assocLookup m s.members = some mem)
    (hcons : mem.privacy_consent = true)
    (hexp : ¬ mem.membership_expiry < today)
    (hod : mem.borrowed_books.any (fun p => decide (p.2 < today)) = false)
    (hlim : mem.borrowed_books.length < 5)
    (hb : assocLookup i s.books = some b)
    (hz : b.copies = 0) :
    (issue_book s m i br today).2 = .noAvailability ∧
    (∃ b', assocLookup i (issue_book s m i br today).1.books = some b' ∧
      b'.copies = b.copies ∧
      b'.waitlist = (if m ∈ b.waitlist then b.waitlist else b.waitlist ++ [m]) ∧
      m ∈ b'.waitlist ∧
      (m ∉ b.waitlist → b'.waitlist.count m = 1)) ∧
    issue_book (issue_book s m i br today).1 m i br today
      = ((issue_book s m i br today).1, .noAvailability) := by
  have hlim2 : ¬ 5 ≤ mem.borrowed_books.length := by omega
  by_cases hin : m ∈ b.waitlist
  · have hs : issue_book s m i br today = (s, .noAvailability) := by
      unfold issue_book add_to_waitlist
      simp [hon, hm, hcons, hod, hb, hexp, hlim2, hz, hin]
    refine ⟨by rw [hs], ⟨b, ?_, rfl, ?_, hin, ?_⟩, ?_⟩
    · rw [hs]
      exact hb
    · rw [if_pos hin]
    · intro hcontra
      exact absurd hin hcontra
    · rw [hs]
      exact hs
  · have hs : issue_book s m i br today
        = ({ s with books := assocInsert i ({ b with waitlist := b.waitlist ++ [m] }) s.books },
           .noAvailability) := by
      unfold issue_book add_to_waitlist
      simp [hon, hm, hcons, hod, hb, hexp, hlim2, hz, hin]
    have hs2 : issue_book (issue_book s m i br today).1 m i br today
        = ((issue_book s m i br today).1, .noAvailability) := by
      rw [hs]
      unfold issue_book add_to_waitlist
      simp [hon, hm, hcons, hod, hexp, hlim2, hz, assocLookup_insert_self, hin]
    refine ⟨by rw [hs], ⟨{ b with waitlist := b.waitlist ++ [m] }, ?_, rfl, ?_, ?_, ?_⟩, hs2⟩
    · rw [hs]
      exact assocLookup_insert_self _ _ _
    · rw [if_neg hin]
    · simp
    · intro hnin
      simp [List.count_append, hin]
      exact List.count_eq_zero_of_not_mem hin

/-- Witness for C4's amended claim: an eligible member issuing the
zero-copies book `b` in `sZero` is waitlisted exactly once, idempotently. -/
theorem issue_no_copies_waitlists_witness :
    (issue_book sZero "m" "b" "br" 10).2 = .noAvailability ∧
    (∃ b', assocLookup "b" (issue_book sZero "m" "b" "br" 10).1.books = some b' ∧
      b'.copies = bookZero.copies ∧
      b'.waitlist
        = (if "m" ∈ bookZero.waitlist then bookZero.waitlist else bookZero.waitlist ++ ["m"]) ∧
      "m" ∈ b'.waitlist ∧
      ("m" ∉ bookZero.waitlist → b'.waitlist.count "m" = 1)) ∧
    issue_book (issue_book sZero "m" "b" "br" 10).1 "m" "b" "br" 10
      = ((issue_book sZero "m" "b" "br" 10).1, .noAvailability) :=
  issue_no_copies_waitlists sZero "m" "b" "br" 10 memZero bookZero rfl rfl rfl
    (by decide) rfl (by decide) rfl rfl

/-! Section: Claim C5 -/

/-- Claim C5: for every return of a borrowed book, the total fine added by
`return_book` equals `max 0 (returnDate - dueDate) * 5` plus exactly 100 if
the condition is `damaged`, plus exactly 500 if `lost` and plus 0 otherwise
(`good`); the two components are additive, not compounded.  (The waitlist
promotion that runs afterwards never touches fines.) -/
theorem return_fine_additive
    (s : LibrarySystem) (m i : String) (rd t : Int) (cond : String)
    (mem : Member) (b : Book) (due : Int)
    (hm : assocLookup m s.members = some mem)
    (hb : assocLookup i s.books = some b)
    (hd : assocLookup i mem.borrowed_books = some due) :
    (assocLookup m (return_book s m i rd cond t).1.members).map Member.fines
      = some (mem.fines + (max 0 (rd - due)) * 5
          + (if cond = "damaged" then 100 else if cond = "lost" then 500 else 0)) := by
  rcases return_book_state s m i rd cond t with ⟨heq, _, hno⟩ |
    ⟨mem1, b1, due1, hm1, hb1, hd1, heq, _⟩
  · exact absurd ⟨mem, b, due, hm, hb, hd⟩ hno
  · rw [hm] at hm1
    cases hm1
    rw [hb] at hb1
    cases hb1
    rw [hd] at hd1
    cases hd1
    rw [heq, handle_waitlist_fines]
    have harith : (if due < rd then (rd - due) * 5 else 0) = (max 0 (rd - due)) * 5 := by
      by_cases hlt : due < rd
      · rw [if_pos hlt, max_eq_right (by omega : (0:Int) ≤ rd - due)]
      · rw [if_neg hlt, max_eq_left (by omega : rd - due ≤ (0:Int))]
        simp
    simp [assocLookup_insert_self, harith]

/-- Witness for C5: member `m` of `sIssued` returns book `b` six days late
and damaged; the fine added is exactly `max 0 6 * 5 + 100 = 130`. -/
theorem return_fine_additive_witness :
    (assocLookup "m" (return_book sIssued "m" "b" 20 "damaged" 20).1.members).map
      Member.fines
      = some (memIssued.fines + (max 0 (20 - 14)) * 5
          + (if "damaged" = "damaged" then 100
             else if "damaged" = "lost" then 500 else 0)) :=
  return_fine_additive sIssued "m" "b" 20 20 "damaged" memIssued bookIssued 14 rfl rfl rfl

/-! Section: Claim C6 -/

/-- Claim C6: returning an isbn that is not in the member's `borrowed_books`
is reported as not-found and leaves the entire system state unchanged — no
fine, no history or reading-time entry, no challenge progress, no copy-count
change, and no waitlist promotion. -/
theorem return_not_borrowed_noop
    (s : LibrarySystem) (m i : String) (rd : Int) (cond : String) (t : Int)
    (mem : Member) (b : Book)
    (hm : assocLookup m s.members = some mem)
    (hb : assocLookup i s.books = some b)
    (hd : assocLookup i mem.borrowed_books = none) :
    return_book s m i rd cond t = (s, .notFound) := by
  unfold return_book
  simp only [hm, hb, hd]

/-- Witness for C6: member `m` of `sRW` has borrowed nothing, so returning
`b` is a reported no-op. -/
theorem return_not_borrowed_noop_witness :
    return_book sRW "m" "b" 5 "good" 5 = (sRW, .notFound) :=
  return_not_borrowed_noop sRW "m" "b" 5 "good" 5 memRW bookRW rfl rfl rfl

/-! Section: Claim C8 -/

/-- Claim C8: the waitlist drain pops the head member and auto-issues via
`issue_book` with every eligibility check still enforced.  Here the head
member `m` is expired: the auto-issue fails, `m` receives no book (their
member record is untouched), and `m` is dropped from the waitlist without
being re-queued — the final waitlist of the book no longer contains `m`. -/
theorem waitlist_drop_ineligible
    (s : LibrarySystem) (isbn m : String) (rest : List String) (b : Book) (mem : Member)
    (today : Int)
    (hb : assocLookup isbn s.books = some b)
    (hw : b.waitlist = m :: rest)
    (hc : 0 < b.copies)
    (hm : assocLookup m s.members = some mem)
    (hon : s.system_status = "online")
    (hcons : mem.privacy_consent = true)
    (hexp : mem.membership_expiry < today)
    (hnr : m ∉ rest) :
    assocLookup m (handle_waitlist s isbn today).members = some mem ∧
    ∀ b', assocLookup isbn (handle_waitlist s isbn today).books = some b' →
      m ∉ b'.waitlist := by
  have hexpired : ∀ (br2 : List (String × Branch)) (bl2 : List (String × Book)),
      issue_book
        { branches := br2, books := bl2, members := s.members,
          system_status := s.system_status } m isbn "auto" today
      = ({ branches := br2, books := bl2, members := s.members,
           system_status := s.system_status }, .expired) := by
    intro br2 bl2
    unfold issue_book
    simp [hon, hm, hcons, hexp]
  unfold handle_waitlist
  simp only [hb, hw, List.length_cons]
  simp only [handle_go, hb, hw, if_pos hc]
  rw [hexpired]
  refine ⟨?_, ?_⟩
  · rw [handle_go_member_notin m rest.length _ isbn today ?side]
    case side =>
      intro b2 hb2
      rw [assocLookup_insert_self] at hb2
      cases hb2
      exact hnr
    exact hm
  · intro b' hb' hmem'
    obtain ⟨bb, hbb, hxbb⟩ :=
      handle_go_waitlist_subset rest.length _ isbn today m b' hb' hmem'
    rw [assocLookup_insert_self] at hbb
    cases hbb
    exact hnr hxbb

/-- Witness for C8 on the literal state `sW8`: the expired member `w` heads
the waitlist with a copy available; the drain drops them without issuing. -/
theorem waitlist_drop_ineligible_witness :
    assocLookup "w" (handle_waitlist sW8 "b" 20).members = some memW8 ∧
    ∀ b', assocLookup "b" (handle_waitlist sW8 "b" 20).books = some b' →
      "w" ∉ b'.waitlist :=
  waitlist_drop_ineligible sW8 "b" "w" [] bookW8 memW8 20 rfl rfl (by decide) rfl rfl rfl
    (by decide) (by decide)

/-! Section: Claim C9 -/

theorem return_book_fines_mono
    (s : LibrarySystem) (m i : String) (rd : Int) (cond : String) (t : Int)
    (x : String) (mem mem' : Member)
    (hx : assocLookup x s.members = some mem)
    (hx' : assocLookup x (return_book s m i rd cond t).1.members = some mem') :
    mem.fines ≤ mem'.fines := by
  rcases return_book_state s m i rd cond t with ⟨heq, _, _⟩ |
    ⟨mm, bb, dd, hm, hb, hd, heq, _⟩
  · rw [heq, hx] at hx'
    cases hx'
    exact le_refl _
  · have hf : (assocLookup x (return_book s m i rd cond t).1.members).map Member.fines
        = some mem'.fines := by
      rw [hx']
      rfl
    rw [heq, handle_waitlist_fines] at hf
    by_cases hxm : x = m
    · subst hxm
      rw [hx] at hm
      cases hm
      simp [assocLookup_insert_self] at hf
      have hlate : (0:Int) ≤ (if dd < rd then (rd - dd) * 5 else 0) := by
        by_cases h : dd < rd
        · rw [if_pos h]
          omega
        · rw [if_neg h]
      have hcond : (0:Int) ≤ (if cond = "damaged" then 100
          else if cond = "lost" then 500 else 0) := by
        by_cases h1 : cond = "damaged"
        · simp [h1]
        · by_cases h2 : cond = "lost" <;> simp [h1, h2]
      omega
    · simp [assocLookup_insert_ne hxm] at hf
      rw [hx] at hf
      simp at hf
      omega

/-- Counterexample to claim C9 as stated: member `m` of `sFined` owes 30,
but re-registering the same member id resets the record and drops the fines
to 0 — `register_member` overwrites existing members wholesale. -/
theorem fines_reregister_cex :
    (assocLookup "m" sFined.members).map Member.fines = some 30 ∧
    (assocLookup "m" (step sFined (.opRegister "m" "n" "c" "t" 20)).members).map
      Member.fines = some 0 ∧
    ¬ ((30:Int) ≤ 0) :=
  ⟨rfl, rfl, by decide⟩

/-- Claim C9 (amended): across any single step of the system, no member's
accumulated fines ever decrease — with the one exception the counterexample
forces: `register_member` invoked with that member's own id, which overwrites
the record and resets the fines to zero. -/
theorem fines_monotone_step
    (s : LibrarySystem) (op : Op) (m : String) (mem mem' : Member)
    (hop : opRegisters op m = false)
    (h1 : assocLookup m s.members = some mem)
    (h2 : assocLookup m (step s op).members = some mem') :
    mem.fines ≤ mem'.fines := by
  cases op with
  | opAddBranch bid loc hours =>
    have h2' : assocLookup m s.members = some mem' := h2
    rw [h1] at h2'
    cases h2'
    exact le_refl _
  | opAddBook i title author genre c bt =>
    have hmem : (step s (.opAddBook i title author genre c bt)).members = s.members := by
      unfold step add_book
      cases hb : assocLookup i s.books with
      | none => simp only [hb]
      | some b => simp only [hb]
    rw [hmem, h1] at h2
    cases h2
    exact le_refl _
  | opRegister mid nm ct mt td =>
    have hne : ¬ (mid = m) := by simpa [opRegisters] using hop
    have h2'' : assocLookup m (step s (.opRegister mid nm ct mt td)).members
        = assocLookup m s.members :=
      assocLookup_insert_ne (fun hh => hne hh.symm) _ _
    rw [h2'', h1] at h2
    cases h2
    exact le_refl _
  | opIssue mid i brid td =>
    have hf := issue_book_members_fines s mid i brid td m
    have h2' : assocLookup m (issue_book s mid i brid td).1.members = some mem' := h2
    rw [h2', h1] at hf
    simp at hf
    omega
  | opReturn mid i rd cond td =>
    exact return_book_fines_mono s mid i rd cond td m mem mem' h1 h2

/-- Witness for C9's amended claim: issuing another book to the fined member
leaves their 30 in fines untouched. -/
theorem fines_monotone_step_witness :
    assocLookup "m" sFined.members = some memFined ∧
    assocLookup "m" (step sFined (.opIssue "m" "b" "br" 21)).members
      = some memFinedIssued ∧
    memFined.fines ≤ memFinedIssued.fines :=
  ⟨rfl, rfl,
    fines_monotone_step sFined (.opIssue "m" "b" "br" 21) "m" memFined memFinedIssued
      rfl rfl rfl⟩

/-! Section: Claim C10 -/

/-- Claim C10: `issue_book` never removes any member from any book's
waitlist: every book's waitlist is either unchanged or (on the zero-copies
path, for the requested isbn only) extended with the caller at the tail; and
on a successful issue every waitlist is unchanged — in particular a member at
the head of the waitlist who obtains the book directly stays at the head. -/
theorem issue_preserves_waitlists
    (s : LibrarySystem) (m i br j : String) (t : Int) (bk : Book)
    (hj : assocLookup j s.books = some bk) :
    ∃ bk', assocLookup j (issue_book s m i br t).1.books = some bk' ∧
      (bk'.waitlist = bk.waitlist ∨ (j = i ∧ bk'.waitlist = bk.waitlist ++ [m])) ∧
      (∀ d, (issue_book s m i br t).2 = .issued d → bk'.waitlist = bk.waitlist) := by
  rcases issue_book_state s m i br t with ⟨heq, hres⟩ | ⟨b, hb, hz, hnin, heq, hres⟩ |
    ⟨mem, b, hm, hb, hcz, hlim, heq, hres⟩
  · refine ⟨bk, by rw [heq]; exact hj, Or.inl rfl, ?_⟩
    intro d hd
    exact absurd hd (hres d)
  · by_cases hji : j = i
    · subst hji
      rw [hj] at hb
      cases hb
      refine ⟨{ bk with waitlist := bk.waitlist ++ [m] }, ?_, Or.inr ⟨rfl, rfl⟩, ?_⟩
      · rw [heq]
        exact assocLookup_insert_self _ _ _
      · intro d hd
        rw [hres] at hd
        cases hd
    · refine ⟨bk, ?_, Or.inl rfl, ?_⟩
      · rw [heq]
        show assocLookup j (assocInsert i _ s.books) = some bk
        rw [assocLookup_insert_ne hji]
        exact hj
      · intro d hd
        rw [hres] at hd
  · by_cases hji : j = i
    · subst hji
      rw [hj] at hb
      cases hb
      refine ⟨{ bk with copies := bk.copies - 1 }, ?_, Or.inl rfl, fun d _ => rfl⟩
      rw [heq]
      exact assocLookup_insert_self _ _ _
    · refine ⟨bk, ?_, Or.inl rfl, fun d _ => rfl⟩
      rw [heq]
      show assocLookup j (assocInsert i _ s.books) = some bk
      rw [assocLookup_insert_ne hji]
      exact hj

/-- Witness for C10 on `sWaiting`: member `m` issues the book directly while
`w` heads the waitlist; the waitlist is untouched (so `w` stays at the head). -/
theorem issue_preserves_waitlists_witness :
    ∃ bk', assocLookup "b" (issue_book sWaiting "m" "b" "br" 0).1.books = some bk' ∧
      (bk'.waitlist = bookWaiting.waitlist ∨
        ("b" = "b" ∧ bk'.waitlist = bookWaiting.waitlist ++ ["m"])) ∧
      (∀ d, (issue_book sWaiting "m" "b" "br" 0).2 = .issued d →
        bk'.waitlist = bookWaiting.waitlist) :=
  issue_preserves_waitlists sWaiting "m" "b" "br" "b" 0 bookWaiting rfl

end LibSys
